import Mathlib

/-!
Verification of the hybrid-retrieval core of the `rag-related` repository.

The development shallowly embeds the fusion / retrieval code of

  * `src/03-rag-embedding/03_hybrid_retriever.py`   (`HybridRetriever.search`)
  * `src/03-rag-embedding/01_bm25_retriever.py`     (`BM25Retriever.search`)
  * `src/03-rag-embedding/02_dense_embedding_retriever.py`
  * `src/05-pre-retrieval/01-query-translation/04_langchain_RAGFusion.py`
    (`RAGFusionRetriever.reciprocal_rank_fusion`)
  * `src/04-rag-vector-storage/icd10-vectors-demo/search_service.py`
    (`SearchService`)
  * `src/04-rag-vector-storage/icd10-vectors-demo/medical_ner_service.py`
    (`MedicalNERService`)

Modelling conventions:
  * Python floats are modelled as exact rationals (`ℚ`); the verified
    properties are order- and arithmetic-identities, not rounding facts.
  * A Python `dict` (which preserves key-insertion order, and keeps a key's
    position when its value is updated) is modelled as an association list.
  * Python's `sorted` is a stable sort; it is modelled with Mathlib's
    `List.insertionSort` under a reflexive total preorder on the sort key,
    which has the same stable behaviour.
  * External model services (the BM25 scoring library, the embedding model,
    the Milvus backend, the transformers NER pipeline) are parameters of the
    embedded functions: the code under verification consumes their output.
-/

namespace RagRel

/-! ## Stable sorting, as performed by Python `sorted` -/

/-- Descending comparison on a rational sort key:
`sorted(xs, key=key, reverse=True)` places `a` before `b` iff `key b ≤ key a`,
keeping the original order of equal keys (stability). -/
def scoreGE {α : Type} (key : α → ℚ) (a b : α) : Prop := key b ≤ key a

instance {α : Type} (key : α → ℚ) : DecidableRel (scoreGE key) :=
  fun a b => inferInstanceAs (Decidable (key b ≤ key a))

instance {α : Type} (key : α → ℚ) : IsTotal α (scoreGE key) :=
  ⟨fun a b => le_total (key b) (key a)⟩

instance {α : Type} (key : α → ℚ) : IsTrans α (scoreGE key) :=
  ⟨fun _ _ _ hab hbc => le_trans hbc hab⟩

/-- Ascending comparison on a natural-number sort key, for
`sorted(xs, key=key)`; again stable. -/
def keyLE {α : Type} (key : α → ℕ) (a b : α) : Prop := key a ≤ key b

instance {α : Type} (key : α → ℕ) : DecidableRel (keyLE key) :=
  fun a b => inferInstanceAs (Decidable (key a ≤ key b))

instance {α : Type} (key : α → ℕ) : IsTotal α (keyLE key) :=
  ⟨fun a b => le_total (key a) (key b)⟩

instance {α : Type} (key : α → ℕ) : IsTrans α (keyLE key) :=
  ⟨fun _ _ _ hab hbc => le_trans hab hbc⟩

/-- Python `sorted(xs, key=key, reverse=True)`. -/
def pySortDesc {α : Type} (key : α → ℚ) (l : List α) : List α :=
  List.insertionSort (scoreGE key) l

/-- Python `sorted(xs, key=key)` with a natural-number key. -/
def pySortAsc {α : Type} (key : α → ℕ) (l : List α) : List α :=
  List.insertionSort (keyLE key) l

/-! ## HybridRetriever.search (03_hybrid_retriever.py)

```python
rrf_scores = {}
for rank, (doc, _) in enumerate(bm25_results):
    if doc not in rrf_scores: rrf_scores[doc] = 0
    rrf_scores[doc] += 1 / (k_rrf + rank + 1)
for rank, (doc, _) in enumerate(dense_results):
    if doc not in rrf_scores: rrf_scores[doc] = 0
    rrf_scores[doc] += 1 / (k_rrf + rank + 1)
sorted_docs = sorted(rrf_scores.items(), key=lambda item: item[1], reverse=True)
return sorted_docs[:top_k]
```

The loop only uses the document strings of each result list (the raw scores
are discarded by the tuple pattern `(doc, _)`), so the embedding takes the
two ranked document lists. -/

/-- The reciprocal-rank contribution used by `HybridRetriever.search`:
`1 / (k_rrf + rank + 1)`. -/
def rrfContrib (kRrf r : ℕ) : ℚ := 1 / ((kRrf : ℚ) + (r : ℚ) + 1)

/-- `rrf_scores[doc] += c` on an insertion-ordered Python dict. -/
def addScore : List (String × ℚ) → String → ℚ → List (String × ℚ)
  | [], d, c => [(d, c)]
  | (x, s) :: rest, d, c =>
    if x = d then (x, s + c) :: rest else (x, s) :: addScore rest d c

/-- One `for rank, doc in enumerate(docs)` accumulation loop, adding
`f rank` to each document's entry; `r` is the rank of the list head. -/
def accumWith (f : ℕ → ℚ) : List (String × ℚ) → List String → ℕ → List (String × ℚ)
  | scores, [], _ => scores
  | scores, doc :: docs, r => accumWith f (addScore scores doc (f r)) docs (r + 1)

/-- The `rrf_scores` dict built by `HybridRetriever.search`: first the BM25
list is accumulated, then the dense list. -/
def hybridScores (bm25 dense : List String) (kRrf : ℕ) : List (String × ℚ) :=
  accumWith (rrfContrib kRrf) (accumWith (rrfContrib kRrf) [] bm25 0) dense 0

/-- `sorted(rrf_scores.items(), key=lambda item: item[1], reverse=True)`. -/
def hybridFuse (bm25 dense : List String) (kRrf : ℕ) : List (String × ℚ) :=
  pySortDesc Prod.snd (hybridScores bm25 dense kRrf)

/-- `HybridRetriever.search`: the fused list truncated to `top_k`. -/
def hybridSearch (bm25 dense : List String) (topK kRrf : ℕ) : List (String × ℚ) :=
  (hybridFuse bm25 dense kRrf).take topK

/-- Python dict lookup `rrf_scores[d]`, with `0` for a missing key. -/
def lookupScore (d : String) : List (String × ℚ) → ℚ
  | [] => 0
  | (x, s) :: rest => if x = d then s else lookupScore d rest

/-- Specification-side reading of one list's contribution: the sum of
`f rank` over every position `rank` at which `d` occurs in the list, the
head having rank `r`. -/
def docMass (f : ℕ → ℚ) (d : String) : List String → ℕ → ℚ
  | [], _ => 0
  | x :: xs, r => (if x = d then f r else 0) + docMass f d xs (r + 1)

/-- The dict contents produced by accumulating a list of distinct documents
that are all new to the dict: each document paired with the contribution of
its rank, in list order. -/
def rankedPairs (f : ℕ → ℚ) : List String → ℕ → List (String × ℚ)
  | [], _ => []
  | x :: xs, r => (x, f r) :: rankedPairs f xs (r + 1)

/-! ## RAGFusionRetriever.reciprocal_rank_fusion (04_langchain_RAGFusion.py)

```python
fused_scores = {}
for docs in results:
    for rank, doc in enumerate(docs):
        doc_str = doc.page_content
        if doc_str not in fused_scores:
            fused_scores[doc_str] = {"score": 0, "doc": doc}
        fused_scores[doc_str]["score"] += 1 / (rank + k)
sorted_results = sorted(fused_scores.values(), key=lambda x: x["score"], reverse=True)
return [item["doc"] for item in sorted_results]
```

Documents are identified by their `page_content` string. -/

/-- The reciprocal-rank term of `reciprocal_rank_fusion`: `1 / (rank + k)`. -/
def ragContrib (k r : ℕ) : ℚ := 1 / ((r : ℚ) + (k : ℚ))

/-- `RAGFusionRetriever.reciprocal_rank_fusion`. -/
def reciprocal_rank_fusion (results : List (List String)) (k : ℕ) : List String :=
  (pySortDesc Prod.snd
    (results.foldl (fun fs docs => accumWith (ragContrib k) fs docs 0) [])).map Prod.fst

/-! ## Medical entities and the query expander
(search_service.py `_build_search_queries`, medical_ner_service.py) -/

/-- An entity dict produced by `MedicalNERService`
(`{text, label, confidence, start, end}`; `end` is a Lean keyword, so the
field is called `stop`). -/
structure Entity where
  text : String
  label : String
  confidence : ℚ
  start : ℕ
  stop : ℕ
deriving DecidableEq

/-- A query dict built by `SearchService._build_search_queries`
(`{text, weight, type}`). -/
structure SubQuery where
  text : String
  weight : ℚ
  type : String
deriving DecidableEq

/-- The ASCII whitespace class of Python's regex `\s` and of `str.strip()`. -/
def isPySpace (c : Char) : Bool :=
  c == ' ' || c == '\t' || c == '\n' || c == '\r' || c == '\x0b' || c == '\x0c'

/-- Python `str.strip()` on the character list. -/
def stripWS (l : List Char) : List Char :=
  ((l.dropWhile isPySpace).reverse.dropWhile isPySpace).reverse

/-- Python `str.strip()`; `s.strip()` is truthy iff `pyStrip s ≠ ""`, and
`not s or not s.strip()` is exactly `pyStrip s = ""`. -/
def pyStrip (s : String) : String := String.mk (stripWS s.toList)

/-- Whether the character list `needle` is an initial segment of `l`. -/
def leadsWith : List Char → List Char → Bool
  | [], _ => true
  | _ :: _, [] => false
  | a :: as, b :: bs => a == b && leadsWith as bs

/-- Whether `needle` occurs as a contiguous sublist of the second list;
Python's `needle in hay` on strings. -/
def hasSub (needle : List Char) : List Char → Bool
  | [] => leadsWith needle []
  | c :: rest => leadsWith needle (c :: rest) || hasSub needle rest

/-- Python `needle in hay` for strings. -/
def strContains (hay needle : String) : Bool := hasSub needle.toList hay.toList

/-- Python `' '.join(texts)`. -/
def joinSpace (texts : List String) : String := String.intercalate " " texts

/-- The loop `for i, entity_text in enumerate(entity_texts)` of
`_build_search_queries`: each group whose text does not strip to empty
becomes a query of weight `0.8 - i*0.1` and type `entity_i`. -/
def entity_queries_from (i : ℕ) : List String → List SubQuery
  | [] => []
  | t :: ts =>
    (if pyStrip t ≠ "" then [⟨t, 4/5 - (i : ℚ) / 10, "entity_" ++ toString i⟩] else [])
      ++ entity_queries_from (i + 1) ts

/-- `SearchService._build_search_queries(original_text, entities, use_ner)`:
the original text always comes first with weight 1.0 and type `"original"`;
with NER enabled and entities present, a disease/symptom group and a symptom
group are joined into at most two entity queries of weight `0.8 - i*0.1`,
skipping groups whose joined text strips to empty. -/
def build_search_queries (originalText : String) (entities : List Entity)
    (useNer : Bool) : List SubQuery :=
  let base : List SubQuery := [⟨originalText, 1, "original"⟩]
  if useNer ∧ entities ≠ [] then
    let diseaseEntities := entities.filter (fun e =>
      strContains e.label.toLower "disease" || strContains e.label.toLower "symptom")
    let symptomEntities := entities.filter (fun e =>
      strContains e.label.toLower "symptom")
    let entityTexts :=
      (if diseaseEntities ≠ [] then [joinSpace (diseaseEntities.map Entity.text)] else [])
      ++ (if symptomEntities ≠ [] then [joinSpace (symptomEntities.map Entity.text)] else [])
    base ++ entity_queries_from 0 entityTexts
  else base

/-! ## SearchService._execute_vector_search and _merge_and_rank_results

```python
results = self.milvus_service.search_vectors(vectors=..., top_k=top_k * 2, ...)
processed_results = []
for hit in results[0]:
    score = float(hit.score)
    if score >= score_threshold:
        processed_results.append({'id': hit.id, 'score': score * weight,
            'weighted_score': score * weight, 'original_score': score,
            'query_weight': weight, 'disease_code': ..., ...})
```

The Milvus backend is a parameter `backend : String → ℕ → List RawHit`
mapping a query text and a requested pool size to its ranked hits; the
display-only payload fields (`disease_name`, `chapter_name`, ...) that no
algorithm inspects are not modelled. -/

/-- One Milvus hit for a query vector. -/
structure RawHit where
  id : ℕ
  score : ℚ
  code : String
deriving DecidableEq

/-- One processed result dict of `_execute_vector_search`, also the unit
merged by `_merge_and_rank_results`. -/
structure MergedEntry where
  code : String
  weightedScore : ℚ
  originalScore : ℚ
  queryWeight : ℚ
deriving DecidableEq

/-- `SearchService._execute_vector_search(query_text, weight, top_k,
score_threshold)` over a Milvus `backend`. -/
def execute_vector_search (backend : String → ℕ → List RawHit)
    (queryText : String) (weight : ℚ) (topK : ℕ) (threshold : ℚ) :
    List MergedEntry :=
  ((backend queryText (topK * 2)).filter (fun h => decide (threshold ≤ h.score))).map
    (fun h => { code := h.code, weightedScore := h.score * weight,
                originalScore := h.score, queryWeight := weight })

/-- `unique_results[code] = result` under
`if code not in unique_results or result['weighted_score'] > unique_results[code]['weighted_score']`:
a present key keeps its insertion position and keeps the entry with the
strictly larger weighted score; a new key is appended. -/
def addMerged : List MergedEntry → MergedEntry → List MergedEntry
  | [], r => [r]
  | e :: rest, r =>
    if e.code = r.code then
      (if e.weightedScore < r.weightedScore then r else e) :: rest
    else e :: addMerged rest r

/-- `SearchService._merge_and_rank_results(all_results, top_k)`. -/
def merge_and_rank_results (allResults : List MergedEntry) (topK : ℕ) :
    List MergedEntry :=
  if allResults = [] then []
  else (pySortDesc MergedEntry.weightedScore (allResults.foldl addMerged [])).take topK

/-! ## MedicalNERService (medical_ner_service.py)

The transformers pipeline is a parameter
`String → Except String (List RawEnt)`; `Except.error` models the pipeline
raising. `self.ner_pipeline is None` (backup mode) is `none`. -/

/-- One aggregated output item of the transformers NER pipeline
(`{word, entity_group, score, start, end}`). -/
structure RawEnt where
  word : String
  entityGroup : String
  score : ℚ
  start : ℕ
  stop : ℕ
deriving DecidableEq

/-- `NER_CONFIG['confidence_threshold']` (config.py). -/
def confidence_threshold : ℚ := 7/10

/-- `re.sub(r'\s+', ' ', text)`: every maximal whitespace run becomes one
space.  The flag records whether the previous character was whitespace. -/
def collapseWSAux : Bool → List Char → List Char
  | _, [] => []
  | inWs, c :: rest =>
    if isPySpace c then
      if inWs then collapseWSAux true rest else ' ' :: collapseWSAux true rest
    else c :: collapseWSAux false rest

/-- The character class kept by
`re.sub(r'[^一-龥a-zA-Z0-9\s，。；：！？]', '', text)`. -/
def keepChar (c : Char) : Bool :=
  (0x4e00 ≤ c.toNat && c.toNat ≤ 0x9fa5)
  || (('a' ≤ c && c ≤ 'z') || ('A' ≤ c && c ≤ 'Z') || ('0' ≤ c && c ≤ '9'))
  || isPySpace c
  || c == '，' || c == '。' || c == '；' || c == '：' || c == '！' || c == '？'

/-- `MedicalNERService._preprocess_text`. -/
def preprocess_text (text : String) : String :=
  String.mk (stripWS ((collapseWSAux false text.toList).filter keepChar))

/-- The `medical_keywords` dictionary of `_load_backup_ner`, in its source
order. -/
def medicalKeywords : List (String × List String) :=
  [("DISEASE",
    ["心肌梗死", "高血压", "糖尿病", "肺炎", "哮喘", "肝炎",
     "胃炎", "肾炎", "关节炎", "肿瘤", "癌症", "白血病",
     "脑梗", "中风", "骨折", "感冒", "发烧", "咳嗽",
     "头痛", "腹痛", "胸痛", "心悸", "眩晕", "失眠"]),
   ("SYMPTOM",
    ["疼痛", "发热", "咳嗽", "气喘", "乏力", "恶心", "呕吐",
     "腹泻", "便秘", "头晕", "头痛", "胸闷", "心悸", "失眠",
     "食欲不振", "体重下降", "出血", "肿胀", "瘙痒", "皮疹"]),
   ("BODY_PART",
    ["心脏", "肺", "肝脏", "肾脏", "大脑", "胃", "肠道",
     "脊椎", "关节", "血管", "神经", "皮肤", "眼睛", "耳朵",
     "鼻子", "喉咙", "手", "脚", "胸部", "腹部", "背部"]),
   ("EXAMINATION",
    ["CT", "MRI", "X光", "B超", "心电图", "血常规", "尿常规",
     "肝功能", "肾功能", "血糖", "血压", "体温", "脉搏"])]

/-- The scanning loop of `re.finditer` for a literal keyword: at each
position either a match starts (and the next `kw.length - 1` characters are
inside it, so they are skipped — matches never overlap) or the scan moves on
by one character; `pos` is the index of the head of the remaining text and
`skip` the number of characters still covered by the previous match. -/
def findMatchesAux (kw : List Char) : List Char → ℕ → ℕ → List (ℕ × ℕ)
  | [], _, _ => []
  | c :: rest, pos, skip =>
    match skip with
    | Nat.succ s => findMatchesAux kw rest (pos + 1) s
    | 0 =>
      if leadsWith kw (c :: rest) then
        (pos, pos + kw.length) :: findMatchesAux kw rest (pos + 1) (kw.length - 1)
      else
        findMatchesAux kw rest (pos + 1) 0

/-- `re.finditer(keyword, text)` for a literal keyword: the `(start, end)`
spans of the non-overlapping matches, scanning left to right. -/
def findMatches (kw text : List Char) (pos : ℕ) : List (ℕ × ℕ) :=
  findMatchesAux kw text pos 0

/-- The raw keyword hits gathered by the loops of `_extract_with_rules`,
before sorting and overlap removal; rule hits carry confidence `0.8`. -/
def rulesEntities (text : String) : List Entity :=
  medicalKeywords.foldr (fun lk acc =>
    (lk.2.foldr (fun kw acc2 =>
      ((findMatches kw.toList text.toList 0).map (fun se =>
        { text := kw, label := lk.1, confidence := 4/5,
          start := se.1, stop := se.2 })) ++ acc2) []) ++ acc) []

/-- The greedy loop of `_remove_overlapping_entities`: keep an entity iff it
overlaps none of the already selected ones (`entity['start'] < selected['end']
and entity['end'] > selected['start']`). -/
def selectNonOverlap (acc : List Entity) : List Entity → List Entity
  | [] => acc
  | e :: rest =>
    if acc.any (fun s => decide (e.start < s.stop) && decide (s.start < e.stop)) then
      selectNonOverlap acc rest
    else
      selectNonOverlap (acc ++ [e]) rest

/-- `MedicalNERService._remove_overlapping_entities`: sort by confidence
descending (stable), greedily drop overlaps, re-sort by start position. -/
def remove_overlapping_entities (entities : List Entity) : List Entity :=
  if entities = [] then entities
  else pySortAsc Entity.start (selectNonOverlap [] (pySortDesc Entity.confidence entities))

/-- `MedicalNERService._extract_with_rules`: collect keyword hits, sort them
by start position, remove overlaps. -/
def extract_with_rules (text : String) : List Entity :=
  remove_overlapping_entities (pySortAsc Entity.start (rulesEntities text))

/-- Python `round(x, n)` in exact arithmetic (round half to even). -/
def pyRound (ndigits : ℕ) (x : ℚ) : ℚ :=
  let y := x * (10 : ℚ) ^ ndigits
  let n := ⌊y⌋
  let up : Prop := 1/2 < y - (n : ℚ) ∨ (y - (n : ℚ) = 1/2 ∧ n % 2 ≠ 0)
  ((if y - (n : ℚ) < 1/2 then n else if decide up then n + 1 else n : ℤ) : ℚ)
    / (10 : ℚ) ^ ndigits

/-- The merging step `_merge_adjacent_entities` walks the list with a
`current` entity and merges a following entity of the same label that starts
within two characters of the current one's end. -/
def mergeAdjacentGo (current : Entity) : List Entity → List Entity
  | [] => [current]
  | nxt :: rest =>
    if current.label = nxt.label ∧ nxt.start ≤ current.stop + 2 then
      mergeAdjacentGo
        { current with
            text := current.text ++ nxt.text
            stop := nxt.stop
            confidence := max current.confidence nxt.confidence } rest
    else current :: mergeAdjacentGo nxt rest

/-- `MedicalNERService._merge_adjacent_entities`. -/
def merge_adjacent_entities : List Entity → List Entity
  | [] => []
  | first :: rest => mergeAdjacentGo first rest

/-- `MedicalNERService._extract_with_model`: on success it keeps results at
or above the confidence threshold and merges adjacent entities of one label.
When the pipeline call raises, the `except` branch calls
`_extract_with_rules` — but `self.medical_keywords` is assigned only by
`_load_backup_ner`, which never runs when a pipeline was loaded, so in the
loaded-pipeline state that fallback immediately raises `AttributeError`:
the method propagates an exception instead of returning, modelled by
`Except.error`. -/
def extract_with_model (pipe : String → Except String (List RawEnt))
    (text : String) : Except String (List Entity) :=
  match pipe text with
  | Except.error _ => Except.error "AttributeError: medical_keywords"
  | Except.ok results =>
    Except.ok (merge_adjacent_entities
      (((results.filter (fun r => decide (confidence_threshold ≤ r.score))).map
        (fun r => { text := r.word, label := r.entityGroup,
                    confidence := pyRound 3 r.score,
                    start := r.start, stop := r.stop }))))

/-- `MedicalNERService.extract_entities`: empty or whitespace text yields no
entities; otherwise the preprocessed text goes to the model path (when a
pipeline is loaded) or to the rule-based backup path (where
`medical_keywords` is defined), and the outer `except Exception` handler
turns any escaping error into the empty entity list. -/
def extract_entities (pipe : Option (String → Except String (List RawEnt)))
    (text : String) : List Entity :=
  if pyStrip text = "" then []
  else
    let cleaned := preprocess_text text
    match pipe with
    | some p =>
      match extract_with_model p cleaned with
      | Except.ok entities => entities
      | Except.error _ => []
    | none => extract_with_rules cleaned

/-! ## BM25Retriever.search and DenseEmbeddingRetriever.search

```python
scores = self.bm25.get_scores(tokenized_query)
top_indices = sorted(range(len(scores)), key=lambda i: scores[i], reverse=True)[:top_k]
results = []
for idx in top_indices:
    if scores[idx] > 0:
        results.append((self.documents[idx], scores[idx]))
```

The scoring models (`rank_bm25.BM25Okapi.get_scores`, the BGE-M3 similarity
vector) are external libraries; their per-document score vector for the
query is the parameter `scores` of length `len(documents)`.  Candidates are
`(document text, score)` pairs, the document text being the identifier the
fusion layer keys on. -/

/-- `BM25Retriever.search`. -/
def bm25_search (documents : List String) (scores : List ℚ) (topK : ℕ) :
    List (String × ℚ) :=
  (((pySortDesc (fun i => scores.getD i 0) (List.range scores.length)).take topK).filter
      (fun i => decide (0 < scores.getD i 0))).map
    (fun i => (documents.getD i "", scores.getD i 0))

/-- `DenseEmbeddingRetriever.search`:
`top_indices = np.argsort(similarities)[::-1][:top_k]` then
`[(self.documents[i], float(similarities[i])) for i in top_indices]`
(`np.argsort`'s order between equal similarities is unspecified; the
embedding resolves such ties by index). -/
def dense_search (documents : List String) (sims : List ℚ) (topK : ℕ) :
    List (String × ℚ) :=
  ((pySortDesc (fun i => sims.getD i 0) (List.range sims.length)).take topK).map
    (fun i => (documents.getD i "", sims.getD i 0))

/-! ## SearchService.search_icd_codes and _format_search_results -/

/-- One formatted result row of `_format_search_results` (display-only
payload fields are not modelled). -/
structure FormattedResult where
  rank : ℕ
  code : String
  similarityScore : ℚ
  weightedScore : ℚ
deriving DecidableEq

/-- The response dict of `search_icd_codes` / `_empty_result`. -/
structure SearchResponse where
  success : Bool
  error : Option String
  queryText : String
  topK : ℕ
  threshold : ℚ
  totalFound : ℕ
  entitiesFound : ℕ
  results : List FormattedResult
  bestMatch : Option FormattedResult
  hasResults : Bool
  bestScore : ℚ
  avgScore : ℚ
deriving DecidableEq

/-- `SEARCH_CONFIG['default_top_k']` (config.py). -/
def default_top_k : ℕ := 10

/-- `SEARCH_CONFIG['score_threshold']` (config.py). -/
def default_score_threshold : ℚ := 7/10

/-- `SearchService._empty_result(message)`: `success=False` with the error
message (its `search_params` dict is empty, modelled by zero fields). -/
def empty_result (message : String) : SearchResponse :=
  { success := false
    error := some message
    queryText := ""
    topK := 0
    threshold := 0
    totalFound := 0
    entitiesFound := 0
    results := []
    bestMatch := none
    hasResults := false
    bestScore := 0
    avgScore := 0 }

/-- `SearchService._format_search_results`: always a `success=True`
response; ranks are 1-based, the best match is the first row, scores are
rounded to 4 digits. -/
def format_search_results (queryText : String) (entities : List Entity)
    (results : List MergedEntry) (topK : ℕ) (threshold : ℚ) : SearchResponse :=
  let formatted := results.enum.map (fun p =>
    { rank := p.1 + 1
      code := p.2.code
      similarityScore := pyRound 4 p.2.originalScore
      weightedScore := pyRound 4 p.2.weightedScore : FormattedResult })
  let best := formatted.head?
  { success := true
    error := none
    queryText := queryText
    topK := topK
    threshold := threshold
    totalFound := formatted.length
    entitiesFound := entities.length
    results := formatted
    bestMatch := best
    hasResults := !formatted.isEmpty
    bestScore := match best with | some b => b.similarityScore | none => 0
    avgScore :=
      if formatted.isEmpty then 0
      else pyRound 4 ((formatted.map FormattedResult.similarityScore).sum / (formatted.length : ℚ)) }

/-- `SearchService.search_icd_codes(query_text, top_k, score_threshold,
use_ner)`: empty or whitespace-only query text short-circuits to
`_empty_result`; otherwise `top_k or default` / `score_threshold or default`
are resolved (Python `or` also replaces a falsy `0`), entities are extracted
when `use_ner`, the sub-queries are built and each is searched, and the
merged results are formatted. -/
def search_icd_codes (backend : String → ℕ → List RawHit)
    (pipe : Option (String → Except String (List RawEnt)))
    (queryText : String) (topKArg : Option ℕ) (thresholdArg : Option ℚ)
    (useNer : Bool) : SearchResponse :=
  if pyStrip queryText = "" then empty_result "查询文本不能为空"
  else
    let topK := match topKArg with
      | none => default_top_k
      | some k => if k = 0 then default_top_k else k
    let threshold := match thresholdArg with
      | none => default_score_threshold
      | some t => if t = 0 then default_score_threshold else t
    let entities := if useNer then extract_entities pipe queryText else []
    let queries := build_search_queries queryText entities useNer
    let allResults := queries.foldl
      (fun acc q => acc ++ execute_vector_search backend q.text q.weight topK threshold) []
    let finalResults := merge_and_rank_results allResults topK
    format_search_results queryText entities finalResults topK threshold

/-! ## Lemmas about the dict accumulation -/

theorem lookupScore_addScore (scores : List (String × ℚ)) (x d : String) (c : ℚ) :
    lookupScore d (addScore scores x c)
      = lookupScore d scores + (if x = d then c else 0) := by
  induction scores with
  | nil =>
    by_cases h : x = d <;> simp [addScore, lookupScore, h]
  | cons e rest ih =>
    obtain ⟨y, s⟩ := e
    by_cases hyx : y = x
    · subst hyx
      by_cases hyd : y = d <;> simp [addScore, lookupScore, hyd]
    · by_cases hyd : y = d
      · subst hyd
        simp [addScore, lookupScore, hyx, if_neg (Ne.symm hyx)]
      · simp [addScore, lookupScore, hyx, hyd, ih]

theorem lookupScore_accumWith (f : ℕ → ℚ) (L : List String) :
    ∀ (scores : List (String × ℚ)) (r : ℕ) (d : String),
      lookupScore d (accumWith f scores L r)
        = lookupScore d scores + docMass f d L r := by
  induction L with
  | nil => intro scores r d; simp [accumWith, docMass]
  | cons x xs ih =>
    intro scores r d
    simp only [accumWith, docMass, ih, lookupScore_addScore]
    ring

theorem rrfContrib_pos (k r : ℕ) : 0 < rrfContrib k r := by
  unfold rrfContrib
  positivity

theorem docMass_nonneg (f : ℕ → ℚ) (hf : ∀ r, 0 ≤ f r) (d : String)
    (L : List String) (r : ℕ) : 0 ≤ docMass f d L r := by
  induction L generalizing r with
  | nil => simp [docMass]
  | cons x xs ih =>
    simp only [docMass]
    have := hf r
    have := ih (r + 1)
    split <;> linarith

theorem docMass_pos (f : ℕ → ℚ) (hf : ∀ r, 0 < f r) (d : String)
    (L : List String) (r : ℕ) (hd : d ∈ L) : 0 < docMass f d L r := by
  induction L generalizing r with
  | nil => cases hd
  | cons x xs ih =>
    simp only [docMass]
    rcases List.mem_cons.mp hd with h | h
    · have h1 := hf r
      have h2 := docMass_nonneg f (fun r => le_of_lt (hf r)) d xs (r + 1)
      rw [if_pos h.symm]
      linarith
    · have h1 := ih (r + 1) h
      have h2 : (0 : ℚ) ≤ if x = d then f r else 0 := by
        have := hf r; split <;> linarith
      linarith

theorem docMass_of_not_mem (f : ℕ → ℚ) (d : String) (L : List String) (r : ℕ)
    (hd : d ∉ L) : docMass f d L r = 0 := by
  induction L generalizing r with
  | nil => simp [docMass]
  | cons x xs ih =>
    have hxd : ¬ x = d := fun h => hd (h ▸ List.mem_cons_self x xs)
    have hxs : d ∉ xs := fun h => hd (List.mem_cons_of_mem x h)
    simp [docMass, hxd, ih _ hxs]

theorem docMass_append (f : ℕ → ℚ) (d : String) (L L' : List String) :
    ∀ r : ℕ, docMass f d (L ++ L') r
      = docMass f d L r + docMass f d L' (r + L.length) := by
  induction L with
  | nil => intro r; simp [docMass]
  | cons x xs ih =>
    intro r
    simp only [List.cons_append, docMass, List.length_cons, List.append_eq]
    rw [ih (r + 1)]
    have h : r + 1 + xs.length = r + (xs.length + 1) := by omega
    rw [h]
    ring

/-- The fused score that `HybridRetriever.search` accumulates for a document
is the sum of its reciprocal-rank masses in the two lists. -/
theorem lookupScore_hybridScores (bm25 dense : List String) (k : ℕ) (d : String) :
    lookupScore d (hybridScores bm25 dense k)
      = docMass (rrfContrib k) d bm25 0 + docMass (rrfContrib k) d dense 0 := by
  unfold hybridScores
  rw [lookupScore_accumWith, lookupScore_accumWith]
  simp [lookupScore]

/-! ## Lemmas about the stable sort -/

theorem sorted_pySortDesc {α : Type} (key : α → ℚ) (l : List α) :
    List.Sorted (scoreGE key) (pySortDesc key l) :=
  List.sorted_insertionSort (scoreGE key) l

theorem perm_pySortDesc {α : Type} (key : α → ℚ) (l : List α) :
    List.Perm (pySortDesc key l) l :=
  List.perm_insertionSort (scoreGE key) l

theorem filter_orderedInsert_eq {α : Type} (key : α → ℚ) (s : ℚ) (x : α)
    (hx : key x = s) (l : List α) :
    (List.orderedInsert (scoreGE key) x l).filter (fun e => decide (key e = s))
      = x :: l.filter (fun e => decide (key e = s)) := by
  induction l with
  | nil => simp [List.orderedInsert, hx]
  | cons y ys ih =>
    by_cases hyx : scoreGE key x y
    · simp [List.orderedInsert, hyx, hx]
    · have hy : ¬ key y = s := by
        unfold scoreGE at hyx
        push_neg at hyx
        intro h
        rw [h, hx] at hyx
        exact absurd le_rfl (not_le.mpr hyx).elim
      simp only [List.orderedInsert, if_neg hyx, List.filter_cons]
      rw [ih]
      simp [hy]

theorem filter_orderedInsert_ne {α : Type} (key : α → ℚ) (s : ℚ) (x : α)
    (hx : ¬ key x = s) (l : List α) :
    (List.orderedInsert (scoreGE key) x l).filter (fun e => decide (key e = s))
      = l.filter (fun e => decide (key e = s)) := by
  induction l with
  | nil => simp [List.orderedInsert, hx]
  | cons y ys ih =>
    by_cases hyx : scoreGE key x y
    · simp [List.orderedInsert, hyx, hx]
    · simp only [List.orderedInsert, if_neg hyx, List.filter_cons]
      rw [ih]

/-- Stability of the Python sort: for every key value `s`, the sub-sequence
of entries whose key equals `s` is unchanged by the sort, i.e. equal-key
entries stay in their pre-sort (insertion) order. -/
theorem filter_pySortDesc {α : Type} (key : α → ℚ) (s : ℚ) (l : List α) :
    (pySortDesc key l).filter (fun e => decide (key e = s))
      = l.filter (fun e => decide (key e = s)) := by
  induction l with
  | nil => rfl
  | cons x xs ih =>
    simp only [pySortDesc] at ih
    show (List.orderedInsert (scoreGE key) x
        (List.insertionSort (scoreGE key) xs)).filter (fun e => decide (key e = s)) = _
    by_cases hx : key x = s
    · rw [filter_orderedInsert_eq key s x hx, ih, List.filter_cons, if_pos (by simpa using hx)]
    · rw [filter_orderedInsert_ne key s x hx, ih, List.filter_cons, if_neg (by simpa using hx)]

/-! ## Fresh accumulation: a Nodup list of new documents is appended in
order, with strictly decreasing reciprocal-rank scores. -/

theorem rankedPairs_fst (f : ℕ → ℚ) (docs : List String) :
    ∀ r : ℕ, (rankedPairs f docs r).map Prod.fst = docs := by
  induction docs with
  | nil => intro r; rfl
  | cons x xs ih => intro r; simp [rankedPairs, ih (r + 1)]

theorem addScore_append_of_fresh (scores : List (String × ℚ)) (d : String)
    (c : ℚ) (hd : d ∉ scores.map Prod.fst) :
    addScore scores d c = scores ++ [(d, c)] := by
  induction scores with
  | nil => rfl
  | cons e rest ih =>
    obtain ⟨y, s⟩ := e
    have hyd : ¬ y = d := by
      intro h
      exact hd (by simp [h])
    have hrest : d ∉ rest.map Prod.fst := by
      intro h
      exact hd (by simp [h])
    simp [addScore, hyd, ih hrest]

theorem accumWith_fresh (f : ℕ → ℚ) (docs : List String) :
    ∀ (scores : List (String × ℚ)) (r : ℕ),
      (∀ x ∈ docs, x ∉ scores.map Prod.fst) → docs.Nodup →
      accumWith f scores docs r = scores ++ rankedPairs f docs r := by
  induction docs with
  | nil => intro scores r _ _; simp [accumWith, rankedPairs]
  | cons x xs ih =>
    intro scores r hfresh hnd
    have hx : x ∉ scores.map Prod.fst := hfresh x (List.mem_cons_self x xs)
    have hnd' := (List.nodup_cons.mp hnd)
    have hfresh' : ∀ y ∈ xs, y ∉ (scores ++ [(x, f r)]).map Prod.fst := by
      intro y hy
      simp only [List.map_append, List.mem_append, List.map_cons, List.map_nil]
      rintro (h | h)
      · exact hfresh y (List.mem_cons_of_mem x hy) h
      · simp only [List.mem_singleton] at h
        exact hnd'.1 (h ▸ hy)
    calc accumWith f scores (x :: xs) r
        = accumWith f (addScore scores x (f r)) xs (r + 1) := rfl
      _ = accumWith f (scores ++ [(x, f r)]) xs (r + 1) := by
          rw [addScore_append_of_fresh scores x (f r) hx]
      _ = (scores ++ [(x, f r)]) ++ rankedPairs f xs (r + 1) := ih _ _ hfresh' hnd'.2
      _ = scores ++ rankedPairs f (x :: xs) r := by simp [rankedPairs]

theorem mem_rankedPairs_snd (f : ℕ → ℚ) (docs : List String) :
    ∀ (r : ℕ) (e : String × ℚ), e ∈ rankedPairs f docs r → ∃ j, r ≤ j ∧ e.2 = f j := by
  induction docs with
  | nil => intro r e he; cases he
  | cons x xs ih =>
    intro r e he
    rcases List.mem_cons.mp he with h | h
    · exact ⟨r, le_rfl, by rw [h]⟩
    · obtain ⟨j, hj, hej⟩ := ih (r + 1) e h
      exact ⟨j, by omega, hej⟩

theorem rankedPairs_sorted (f : ℕ → ℚ) (hf : ∀ i j, i ≤ j → f j ≤ f i)
    (docs : List String) : ∀ r : ℕ,
      List.Sorted (scoreGE Prod.snd) (rankedPairs f docs r) := by
  induction docs with
  | nil => intro r; simp [rankedPairs, List.Sorted]
  | cons x xs ih =>
    intro r
    refine List.Pairwise.cons ?_ (ih (r + 1))
    intro e he
    obtain ⟨j, hj, hej⟩ := mem_rankedPairs_snd f xs (r + 1) e he
    show e.2 ≤ f r
    rw [hej]
    exact hf r j (by omega)

theorem ragContrib_antitone (k : ℕ) (hk : 0 < k) :
    ∀ i j : ℕ, i ≤ j → ragContrib k j ≤ ragContrib k i := by
  intro i j hij
  unfold ragContrib
  have hi : (0 : ℚ) < (i : ℚ) + (k : ℚ) := by
    have : (0 : ℚ) < (k : ℚ) := by exact_mod_cast hk
    have : (0 : ℚ) ≤ (i : ℚ) := by positivity
    linarith
  have hij' : (i : ℚ) + (k : ℚ) ≤ (j : ℚ) + (k : ℚ) := by
    have : (i : ℚ) ≤ (j : ℚ) := by exact_mod_cast hij
    linarith
  exact one_div_le_one_div_of_le hi hij'

/-! ## Claim C1: additivity of the fused score -/

/-- C1 (counterexample): in `SearchService._merge_and_rank_results`, a
document hit by two lists does NOT receive the sum of the two contributions:
merging hits of weighted scores `1/2` and `2/5` for code `A` keeps the
maximum `1/2`, the same score `A` gets from the first list alone, and
`1/2 ≠ 1/2 + 2/5`. -/
theorem merge_and_rank_keeps_max_not_sum :
    (merge_and_rank_results [⟨"A", 1/2, 1/2, 1⟩, ⟨"A", 2/5, 4/5, 1/2⟩] 10).map
        MergedEntry.weightedScore = [1/2]
    ∧ (merge_and_rank_results [⟨"A", 1/2, 1/2, 1⟩] 10).map
        MergedEntry.weightedScore = [1/2]
    ∧ ¬ ((1 : ℚ)/2 = 1/2 + 2/5) := by
  refine ⟨?_, ?_, by norm_num⟩ <;>
  · unfold merge_and_rank_results
    rw [if_neg (List.cons_ne_nil _ _)]
    norm_num [addMerged, pySortDesc, List.insertionSort, List.orderedInsert,
      scoreGE, List.foldl]

/-- C1 (amended): in `HybridRetriever.search` the fused score of a document
is exactly the sum, over both ranked lists, of `1/(k_rrf + rank + 1)` at
each position where the document occurs (both lists carrying weight 1), and
a document present in both lists scores strictly more than the same document
scores from the first list alone. -/
theorem hybrid_fused_score_additive (bm25 dense : List String) (k : ℕ) (d : String) :
    lookupScore d (hybridScores bm25 dense k)
      = docMass (rrfContrib k) d bm25 0 + docMass (rrfContrib k) d dense 0
    ∧ (d ∈ bm25 → d ∈ dense →
        docMass (rrfContrib k) d bm25 0 < lookupScore d (hybridScores bm25 dense k)) := by
  refine ⟨lookupScore_hybridScores bm25 dense k d, fun _ h2 => ?_⟩
  rw [lookupScore_hybridScores bm25 dense k d]
  have := docMass_pos (rrfContrib k) (rrfContrib_pos k) d dense 0 h2
  linarith

/-- Witness for `hybrid_fused_score_additive` at `bm25 = dense = ["A"]`,
`k_rrf = 60`. -/
theorem hybrid_fused_score_additive_witness :
    lookupScore "A" (hybridScores ["A"] ["A"] 60)
      = docMass (rrfContrib 60) "A" ["A"] 0 + docMass (rrfContrib 60) "A" ["A"] 0
    ∧ docMass (rrfContrib 60) "A" ["A"] 0 < lookupScore "A" (hybridScores ["A"] ["A"] 60) :=
  ⟨(hybrid_fused_score_additive ["A"] ["A"] 60 "A").1,
   (hybrid_fused_score_additive ["A"] ["A"] 60 "A").2 (by simp) (by simp)⟩

/-! ## Claim C2: ordering and tie-breaking of the top-k selection -/

/-- C2 (counterexample): with `bm25 = ["b"]` and `dense = ["a"]` both fused
scores are `1/61`, and `HybridRetriever.search` puts `"b"` first because the
BM25 list was accumulated into the dict first — even though `"a" < "b"`
lexicographically (the raw scores were discarded by the fusion loop, so no
rawScore tie-break is possible at all). The claimed tie-break would place
`"a"` first (`"a"` precedes `"b"` in the lexicographic order on the
character data). -/
theorem hybrid_tie_broken_by_insertion_order :
    hybridFuse ["b"] ["a"] 60 = [("b", 1/61), ("a", 1/61)]
    ∧ ("a" : String).data < ("b" : String).data := by
  refine ⟨?_, by decide⟩
  norm_num [hybridFuse, hybridScores, accumWith, addScore, rrfContrib, pySortDesc,
    List.insertionSort, List.orderedInsert, scoreGE]

/-- C2 (amended): `HybridRetriever.search` orders by non-increasing fused
score, and equal-score entries keep their dict insertion order (Python's
`sorted` is stable): for every score value `s`, the sub-sequence of output
entries with fused score `s` equals the sub-sequence of accumulated entries
with score `s`. Ties are resolved by first-insertion order, not by rawScore
or by lexicographic docId. -/
theorem hybrid_sorted_and_stable (bm25 dense : List String) (k : ℕ) :
    List.Sorted (scoreGE Prod.snd) (hybridFuse bm25 dense k)
    ∧ ∀ s : ℚ, (hybridFuse bm25 dense k).filter (fun e => decide (e.2 = s))
        = (hybridScores bm25 dense k).filter (fun e => decide (e.2 = s)) :=
  ⟨sorted_pySortDesc Prod.snd (hybridScores bm25 dense k),
   fun s => filter_pySortDesc Prod.snd s (hybridScores bm25 dense k)⟩

/-! ## Claim C3: single-list passthrough -/

/-- C3: with a single retriever and a single sub-query, the fused ranking of
`RAGFusionRetriever.reciprocal_rank_fusion` equals the retriever's own rank
order, because `1/(rank + k)` is strictly decreasing in the rank (the
retriever contract makes the list duplicate-free, and `k = 60 > 0`). -/
theorem rag_fusion_single_list_passthrough (docs : List String) (k : ℕ)
    (hnd : docs.Nodup) (hk : 0 < k) :
    reciprocal_rank_fusion [docs] k = docs := by
  unfold reciprocal_rank_fusion
  have h1 : ([docs] : List (List String)).foldl
      (fun fs ds => accumWith (ragContrib k) fs ds 0) [] = accumWith (ragContrib k) [] docs 0 := rfl
  rw [h1, accumWith_fresh (ragContrib k) docs [] 0 (by simp) hnd, List.nil_append]
  have hs := rankedPairs_sorted (ragContrib k) (ragContrib_antitone k hk) docs 0
  unfold pySortDesc
  rw [hs.insertionSort_eq]
  exact rankedPairs_fst (ragContrib k) docs 0

/-- Witness for `rag_fusion_single_list_passthrough` on the list
`["a", "b", "c"]` with `k = 60`. -/
theorem rag_fusion_single_list_passthrough_witness :
    List.Nodup ["a", "b", "c"] ∧ 0 < 60
    ∧ reciprocal_rank_fusion [["a", "b", "c"]] 60 = ["a", "b", "c"] :=
  ⟨by decide, by decide,
   rag_fusion_single_list_passthrough ["a", "b", "c"] 60 (by decide) (by decide)⟩

/-! ## Claim C4: where the sub-query weight is applied -/

/-- C4 (counterexample): in `SearchService._execute_vector_search` a hit at
rank 0 with raw score `9/10` under a weight-`1/2` sub-query contributes
`9/20 = (9/10) * (1/2)` — the weight multiplies the retriever's raw score,
not the reciprocal-rank term `1/(k_rrf + 0 + 1)`: the contribution differs
from `(1/2) * rrfContrib 60 0 = 1/122`. -/
theorem vector_search_weight_multiplies_raw_score :
    (execute_vector_search (fun _ _ => [⟨1, 9/10, "A"⟩]) "q" (1/2) 10 0).map
        MergedEntry.weightedScore = [9/20]
    ∧ ¬ ((9 : ℚ)/20 = (1/2) * rrfContrib 60 0) := by
  refine ⟨by norm_num [execute_vector_search], by norm_num [rrfContrib]⟩

/-- C4 (amended): the sub-query weight acts linearly — a weight-`w` query
yields exactly `w` times the weighted score that a weight-1.0 query yields
for the same hits (so weight 0.5 contributes exactly half) — but what it
multiplies is the retriever's raw similarity score (`score * weight`); the
weighted search path of the source performs no reciprocal-rank fusion. -/
theorem vector_search_weight_scales_linearly
    (backend : String → ℕ → List RawHit) (text : String) (w : ℚ)
    (topK : ℕ) (th : ℚ) :
    (execute_vector_search backend text w topK th).map MergedEntry.weightedScore
      = ((execute_vector_search backend text 1 topK th).map
          MergedEntry.weightedScore).map (fun s => w * s)
    ∧ (execute_vector_search backend text w topK th).map MergedEntry.originalScore
      = (execute_vector_search backend text 1 topK th).map MergedEntry.originalScore := by
  unfold execute_vector_search
  constructor
  · simp only [List.map_map]
    apply List.map_congr_left
    intro h _
    simp [Function.comp]
    ring
  · simp only [List.map_map]
    apply List.map_congr_left
    intro h _
    simp [Function.comp]

/-! ## Claim C5: monotone accumulation and the effect of removal -/

/-- C5 (counterexample): removing document `"A"` from the dense list while
it stays in the BM25 list strictly DECREASES its fused score in
`HybridRetriever.search` (from `2/61` to `1/61`): removal is not
score-preserving, it takes away that list's positive contribution. -/
theorem removing_candidate_decreases_fused_score :
    lookupScore "A" (hybridScores ["A"] (["A"].filter (fun y => decide ¬(y = "A"))) 60)
      < lookupScore "A" (hybridScores ["A"] ["A"] 60) := by
  norm_num [hybridScores, accumWith, addScore, rrfContrib, lookupScore]

/-- C5 (amended): every reciprocal-rank contribution is strictly positive;
appending a candidate to a list never decreases any document's mass in that
list; a document absent from a list draws 0 from it; and removing a document
from the dense list leaves its fused score exactly equal to the sum of its
remaining (BM25) contributions — the removal subtracts exactly the removed
list's contribution, no more. -/
theorem fused_score_monotone_and_removal
    (k r : ℕ) (d x : String) (L bm25 dense : List String) :
    0 < rrfContrib k r
    ∧ docMass (rrfContrib k) d L r ≤ docMass (rrfContrib k) d (L ++ [x]) r
    ∧ (d ∉ L → docMass (rrfContrib k) d L r = 0)
    ∧ lookupScore d (hybridScores bm25 (dense.filter (fun y => decide ¬(y = d))) k)
        = docMass (rrfContrib k) d bm25 0 := by
  refine ⟨rrfContrib_pos k r, ?_, docMass_of_not_mem (rrfContrib k) d L r, ?_⟩
  · rw [docMass_append]
    have h0 : 0 ≤ docMass (rrfContrib k) d [x] (r + L.length) :=
      docMass_nonneg (rrfContrib k) (fun j => (rrfContrib_pos k j).le) d [x] (r + L.length)
    linarith
  · rw [lookupScore_hybridScores]
    have hd : d ∉ dense.filter (fun y => decide ¬(y = d)) := by
      intro h
      have hp := List.of_mem_filter h
      simp at hp
    rw [docMass_of_not_mem (rrfContrib k) d _ 0 hd, add_zero]

/-- Witness for `fused_score_monotone_and_removal` at `k = 60`, `r = 0`,
`d = "A"`, `x = "B"`, `L = ["B"]`, `bm25 = dense = ["A"]`. -/
theorem fused_score_monotone_and_removal_witness :
    0 < rrfContrib 60 0
    ∧ docMass (rrfContrib 60) "A" ["B"] 0 ≤ docMass (rrfContrib 60) "A" (["B"] ++ ["B"]) 0
    ∧ docMass (rrfContrib 60) "A" ["B"] 0 = 0
    ∧ lookupScore "A" (hybridScores ["A"] (["A"].filter (fun y => decide ¬(y = "A"))) 60)
        = docMass (rrfContrib 60) "A" ["A"] 0 :=
  have h := fused_score_monotone_and_removal 60 0 "A" "B" ["B"] ["A"] ["A"]
  ⟨h.1, h.2.1, h.2.2.1 (by simp), h.2.2.2⟩

/-! ## Claim C6: shape of the expanded query list -/

theorem mem_entity_queries_from (i : ℕ) (ts : List String) :
    ∀ q ∈ entity_queries_from i ts,
      q.weight ≤ 4/5 - (i : ℚ)/10 ∧ pyStrip q.text ≠ "" := by
  induction ts generalizing i with
  | nil =>
    intro q hq
    simp [entity_queries_from] at hq
  | cons t ts ih =>
    intro q hq
    simp only [entity_queries_from] at hq
    rcases List.mem_append.mp hq with h | h
    · by_cases hp : pyStrip t ≠ ""
      · rw [if_pos hp] at h
        rcases List.mem_singleton.mp h with rfl
        exact ⟨le_refl _, hp⟩
      · rw [if_neg hp] at h
        cases h
    · obtain ⟨hw, hs⟩ := ih (i + 1) q h
      refine ⟨?_, hs⟩
      have hcast : ((i + 1 : ℕ) : ℚ) = (i : ℚ) + 1 := by push_cast; ring
      rw [hcast] at hw
      linarith

theorem entity_queries_from_pairwise (i : ℕ) (ts : List String) :
    List.Pairwise (fun a b => b.weight < a.weight) (entity_queries_from i ts) := by
  induction ts generalizing i with
  | nil => simp [entity_queries_from]
  | cons t ts ih =>
    simp only [entity_queries_from]
    rw [List.pairwise_append]
    refine ⟨?_, ih (i + 1), ?_⟩
    · split <;> simp
    · intro a ha b hb
      have hb' := (mem_entity_queries_from (i + 1) ts b hb).1
      have hcast : ((i + 1 : ℕ) : ℚ) = (i : ℚ) + 1 := by push_cast; ring
      rw [hcast] at hb'
      have ha' : a.weight = 4/5 - (i : ℚ)/10 := by
        by_cases hp : pyStrip t ≠ ""
        · rw [if_pos hp] at ha
          rcases List.mem_singleton.mp ha with rfl
          rfl
        · rw [if_neg hp] at ha
          cases ha
      rw [ha']
      linarith

theorem entity_queries_from_length (i : ℕ) (ts : List String) :
    (entity_queries_from i ts).length ≤ ts.length := by
  induction ts generalizing i with
  | nil => simp [entity_queries_from]
  | cons t ts ih =>
    simp only [entity_queries_from, List.length_append, List.length_cons]
    have := ih (i + 1)
    split <;> simp <;> omega

/-- C6: `_build_search_queries` always emits the original query first with
weight exactly 1.0 and type `"original"`; it emits at most 2 entity-derived
sub-queries, with strictly decreasing weights that are all strictly below
1.0 (`0.8 - i*0.1`), and any entity group whose joined text strips to empty
is skipped (every emitted entity query has non-whitespace text). -/
theorem build_queries_original_first_then_decreasing
    (orig : String) (entities : List Entity) (useNer : Bool) :
    (build_search_queries orig entities useNer).head? = some ⟨orig, 1, "original"⟩
    ∧ (build_search_queries orig entities useNer).tail.length ≤ 2
    ∧ List.Pairwise (fun a b => b.weight < a.weight)
        (build_search_queries orig entities useNer).tail
    ∧ List.Forall (fun q => q.weight < 1 ∧ pyStrip q.text ≠ "")
        (build_search_queries orig entities useNer).tail := by
  have hform : ∃ ts : List String, ts.length ≤ 2
      ∧ build_search_queries orig entities useNer
          = ⟨orig, 1, "original"⟩ :: entity_queries_from 0 ts := by
    by_cases hc : useNer ∧ entities ≠ []
    · simp only [build_search_queries, if_pos hc, List.singleton_append]
      refine ⟨_, ?_, rfl⟩
      split_ifs <;> simp
    · exact ⟨[], by simp, by simp [build_search_queries, hc, entity_queries_from]⟩
  obtain ⟨ts, hlen, heq⟩ := hform
  rw [heq]
  refine ⟨rfl, ?_, ?_, ?_⟩
  · simpa using le_trans (entity_queries_from_length 0 ts) hlen
  · simpa using entity_queries_from_pairwise 0 ts
  · simp only [List.tail_cons]
    refine List.forall_iff_forall_mem.mpr (fun q hq => ?_)
    obtain ⟨hw, hs⟩ := mem_entity_queries_from 0 ts q hq
    refine ⟨?_, hs⟩
    have h0 : ((0 : ℕ) : ℚ) = 0 := by norm_num
    rw [h0] at hw
    linarith

/-! ## Claims C7 and C10: the retriever contract -/

/-- Mapping a sub-list of the descending index sort through
`i ↦ (documents[i], scores[i])` yields a score-sorted candidate list with
pairwise distinct document texts (when the corpus texts are distinct). -/
theorem ranked_index_map_spec (documents : List String) (scores : List ℚ)
    (idx : List ℕ)
    (hsub : List.Sublist idx
      (pySortDesc (fun i => scores.getD i 0) (List.range scores.length)))
    (hlen : scores.length = documents.length)
    (hnd : documents.Nodup) :
    List.Sorted (scoreGE Prod.snd)
        (idx.map (fun i => (documents.getD i "", scores.getD i 0)))
    ∧ ((idx.map (fun i => (documents.getD i "", scores.getD i 0))).map Prod.fst).Nodup := by
  have hidx_sorted : List.Pairwise (scoreGE (fun i => scores.getD i 0)) idx :=
    List.Pairwise.sublist hsub (sorted_pySortDesc (fun i => scores.getD i 0) _)
  have hbig_nodup : (pySortDesc (fun i => scores.getD i 0)
      (List.range scores.length)).Nodup :=
    ((perm_pySortDesc (fun i => scores.getD i 0) _).nodup_iff).mpr (List.nodup_range _)
  have hidx_nodup : idx.Nodup := List.Nodup.sublist hsub hbig_nodup
  have hmem : ∀ i ∈ idx, i < documents.length := by
    intro i hi
    have h1 : i ∈ List.range scores.length :=
      ((perm_pySortDesc (fun j => scores.getD j 0) _).mem_iff).mp (hsub.subset hi)
    rw [← hlen]
    exact List.mem_range.mp h1
  constructor
  · exact (List.pairwise_map).mpr (hidx_sorted.imp (fun h => h))
  · rw [List.map_map]
    refine List.Nodup.map_on ?_ hidx_nodup
    intro i hi j hj hij
    have hi' := hmem i hi
    have hj' := hmem j hj
    simp only [Function.comp] at hij
    rw [List.getD_eq_getElem documents "" hi', List.getD_eq_getElem documents "" hj'] at hij
    exact (List.Nodup.getElem_inj_iff hnd).mp hij

/-- C7 (counterexample): with the duplicated corpus `["x", "x"]` and
positive scores, `BM25Retriever.search` returns the same document text
(the docId that fusion keys on) twice in one result list. -/
theorem bm25_duplicate_corpus_duplicate_docids :
    (bm25_search ["x", "x"] [2, 1] 2).map Prod.fst = ["x", "x"]
    ∧ ¬ (["x", "x"] : List String).Nodup := by
  refine ⟨?_, by simp⟩
  norm_num [bm25_search, pySortDesc, List.insertionSort, List.orderedInsert, scoreGE,
    List.range_succ]

/-- C7 (amended): provided the corpus documents are pairwise distinct
(document text is the docId), both concrete retrievers return at most `k`
candidates, ordered by non-increasing retriever-native score, with no
duplicate docIds in one list. -/
theorem retriever_at_most_k_sorted_nodup
    (documents : List String) (scores sims : List ℚ) (topK : ℕ)
    (hlen : scores.length = documents.length)
    (hlen2 : sims.length = documents.length)
    (hnd : documents.Nodup) :
    ((bm25_search documents scores topK).length ≤ topK
      ∧ List.Sorted (scoreGE Prod.snd) (bm25_search documents scores topK)
      ∧ ((bm25_search documents scores topK).map Prod.fst).Nodup)
    ∧ ((dense_search documents sims topK).length ≤ topK
      ∧ List.Sorted (scoreGE Prod.snd) (dense_search documents sims topK)
      ∧ ((dense_search documents sims topK).map Prod.fst).Nodup) := by
  constructor
  · have hsub : List.Sublist
        (((pySortDesc (fun i => scores.getD i 0)
          (List.range scores.length)).take topK).filter
          (fun i => decide (0 < scores.getD i 0)))
        (pySortDesc (fun i => scores.getD i 0) (List.range scores.length)) :=
      (List.filter_sublist _).trans (List.take_sublist _ _)
    obtain ⟨hsort, hnodup⟩ := ranked_index_map_spec documents scores _ hsub hlen hnd
    refine ⟨?_, hsort, hnodup⟩
    unfold bm25_search
    rw [List.length_map]
    exact le_trans (List.length_filter_le _ _) (List.length_take_le _ _)
  · have hsub : List.Sublist
        ((pySortDesc (fun i => sims.getD i 0)
          (List.range sims.length)).take topK)
        (pySortDesc (fun i => sims.getD i 0) (List.range sims.length)) :=
      List.take_sublist _ _
    obtain ⟨hsort, hnodup⟩ := ranked_index_map_spec documents sims _ hsub hlen2 hnd
    refine ⟨?_, hsort, hnodup⟩
    unfold dense_search
    rw [List.length_map]
    exact List.length_take_le _ _

/-- Witness for `retriever_at_most_k_sorted_nodup` at the corpus
`["a", "b"]` with BM25 scores `[3, 1]`, similarities `[1, 2]`, `k = 2`. -/
theorem retriever_at_most_k_sorted_nodup_witness :
    ((bm25_search ["a", "b"] [3, 1] 2).length ≤ 2
      ∧ List.Sorted (scoreGE Prod.snd) (bm25_search ["a", "b"] [3, 1] 2)
      ∧ ((bm25_search ["a", "b"] [3, 1] 2).map Prod.fst).Nodup)
    ∧ ((dense_search ["a", "b"] [1, 2] 2).length ≤ 2
      ∧ List.Sorted (scoreGE Prod.snd) (dense_search ["a", "b"] [1, 2] 2)
      ∧ ((dense_search ["a", "b"] [1, 2] 2).map Prod.fst).Nodup) :=
  retriever_at_most_k_sorted_nodup ["a", "b"] [3, 1] [1, 2] 2 rfl rfl (by simp)

/-- C10: `BM25Retriever.search` keeps a document only when its BM25 score is
strictly positive, so it may return fewer than `top_k` results; when every
score is non-positive (in particular, when no query term overlaps any
document, so all scores are 0) it returns the empty list, no matter how many
documents the corpus holds. -/
theorem bm25_returns_only_positive_scores
    (documents : List String) (scores : List ℚ) (topK : ℕ) :
    (∀ p ∈ bm25_search documents scores topK, 0 < p.2)
    ∧ ((∀ s ∈ scores, s ≤ 0) → bm25_search documents scores topK = []) := by
  constructor
  · intro p hp
    unfold bm25_search at hp
    obtain ⟨i, hi, rfl⟩ := List.mem_map.mp hp
    have h1 := List.of_mem_filter hi
    simpa using h1
  · intro hall
    unfold bm25_search
    have h0 : ∀ i : ℕ, ¬ (0 < scores.getD i 0) := by
      intro i
      by_cases hlt : i < scores.length
      · rw [List.getD_eq_getElem scores 0 hlt]
        have := hall _ (List.getElem_mem hlt)
        linarith
      · rw [List.getD_eq_default scores 0 (by omega)]
        norm_num
    rw [List.filter_eq_nil_iff.mpr (fun i _ => by simpa using h0 i), List.map_nil]

/-- Witness for `bm25_returns_only_positive_scores`: the returned candidate
`("a", 5)` has a positive score, and an all-zero score vector over a
2-document corpus yields no results even with `top_k = 2`. -/
theorem bm25_returns_only_positive_scores_witness :
    0 < (("a", (5 : ℚ)) : String × ℚ).2 ∧ bm25_search ["a", "b"] [0, 0] 2 = [] :=
  ⟨(bm25_returns_only_positive_scores ["a"] [5] 1).1 ("a", 5)
      (by norm_num [bm25_search, pySortDesc, List.insertionSort, List.orderedInsert,
        scoreGE, List.range_succ]),
   (bm25_returns_only_positive_scores ["a", "b"] [0, 0] 2).2 (by norm_num)⟩

/-! ## Claim C8: extractor failure handling -/

/-- C8: when the NER pipeline raises, the failure is caught inside the
extraction layer — the error escapes `_extract_with_model` (its rule
fallback crashes, `medical_keywords` being undefined in the loaded-pipeline
state) and is absorbed by `extract_entities`' outer handler — and the result
is the empty entity list, for every input text; a request whose extraction
yields no entities then proceeds with exactly the Original sub-query of
weight 1.0. -/
theorem extractor_error_yields_no_entities (e text q : String) :
    extract_entities (some (fun _ => Except.error e)) text = []
    ∧ build_search_queries q [] true = [⟨q, 1, "original"⟩] := by
  constructor
  · by_cases h : pyStrip text = "" <;>
      simp [extract_entities, extract_with_model, h]
  · simp [build_search_queries]

/-! ## Claim C9: the only error result is the blank query -/

/-- Fanning an empty backend over any query list accumulates nothing. -/
theorem foldl_append_empty_backend (qs : List SubQuery) (tK : ℕ) (thr : ℚ) :
    ∀ acc : List MergedEntry,
      qs.foldl (fun acc q =>
        acc ++ execute_vector_search (fun _ _ => []) q.text q.weight tK thr) acc = acc := by
  induction qs with
  | nil => intro acc; rfl
  | cons a l ih =>
    intro acc
    rw [List.foldl_cons]
    have hx : execute_vector_search (fun _ _ => ([] : List RawHit)) a.text a.weight tK thr
        = [] := rfl
    rw [hx, List.append_nil]
    exact ih acc

/-- C9: `search_icd_codes` returns `success = False` exactly when the query
text is empty or whitespace-only, in which case it returns `_empty_result`
immediately — the same response whatever the backend would have answered, so
no retrieval or fusion is performed; a non-blank query whose every backend
call yields zero candidates produces a `success = True` response with an
empty result list. -/
theorem search_error_iff_blank_query
    (backend backend2 : String → ℕ → List RawHit)
    (pipe pipe2 : Option (String → Except String (List RawEnt)))
    (q : String) (tk : Option ℕ) (th : Option ℚ) (useNer : Bool) :
    ((search_icd_codes backend pipe q tk th useNer).success = false ↔ pyStrip q = "")
    ∧ (pyStrip q = "" →
        search_icd_codes backend pipe q tk th useNer
          = search_icd_codes backend2 pipe2 q tk th useNer)
    ∧ ((search_icd_codes (fun _ _ => []) pipe q tk th useNer).results = [])
    ∧ (pyStrip q ≠ "" →
        (search_icd_codes (fun _ _ => []) pipe q tk th useNer).success = true) := by
  by_cases h : pyStrip q = ""
  · refine ⟨by simp [search_icd_codes, h, empty_result], ?_, ?_, fun hq => absurd h hq⟩
    · intro _
      simp [search_icd_codes, h]
    · simp [search_icd_codes, h, empty_result]
  · refine ⟨?_, fun hq => absurd hq h, ?_, fun _ => ?_⟩
    · simp only [search_icd_codes, if_neg h]
      simp [format_search_results, h]
    · simp only [search_icd_codes, if_neg h]
      rw [foldl_append_empty_backend]
      simp [merge_and_rank_results, format_search_results]
    · simp only [search_icd_codes, if_neg h]
      simp [format_search_results]

/-- Witness for `search_error_iff_blank_query`: the query `"x"` is not
blank, and with a backend that returns nothing the search still succeeds. -/
theorem search_error_iff_blank_query_witness :
    pyStrip "x" ≠ ""
    ∧ (search_icd_codes (fun _ _ => []) none "x" none none false).success = true :=
  ⟨by decide,
   (search_error_iff_blank_query (fun _ _ => []) (fun _ _ => []) none none
      "x" none none false).2.2.2 (by decide)⟩

end RagRel
